import Mathlib

/-!
Verification of the CSV menu-data cleaner
(`scripts/clean-csv-menu-data-all-columns.py`).

Fields and rows are modelled as `List Char` / lists of fields. The Python
`re.sub` calls are embedded as direct left-to-right, non-overlapping
scanners (the patterns involved — `\d+%`, `\(\d+\)`, `;\s*;`, `,\s*,`,
`\s+`, `\(\s*\)` — admit no overlapping or backtracking subtleties beyond
maximal-run lookahead, which the scanners implement). Recursions that skip
a variable number of characters use a fuel argument initialised to the
string length; every step consumes at least one character, so the fuel
never runs out and the zero-fuel fallback is unreachable.
-/

/-- ASCII whitespace, matching Python `str.strip` / `str.isspace` / `\s`
on the ASCII range: space (32), tab (9), LF (10), VT (11), FF (12), CR (13). -/
def isPySpace (c : Char) : Bool :=
  c.toNat = 32 || (9 ≤ c.toNat && c.toNat ≤ 13)

/-- `UNWANTED_PHRASES` from the script, as character lists. -/
def UNWANTED_PHRASES : List (List Char) :=
  [("Plus small").toList,
   ("Thumb up outline").toList,
   ("No. 1 most liked").toList,
   ("No. 2 most liked").toList,
   ("No. 3 most liked").toList]

/-- Strip characters satisfying `p` from the right end (Python `rstrip`). -/
def rstrip (p : Char → Bool) (l : List Char) : List Char :=
  (l.reverse.dropWhile p).reverse

/-- Strip characters satisfying `p` from both ends (Python `strip`). -/
def strip2 (p : Char → Bool) (l : List Char) : List Char :=
  List.dropWhile p (rstrip p l)

/-- Python `str.strip()` with no argument: strip whitespace from both ends. -/
def stripWs (l : List Char) : List Char :=
  strip2 isPySpace l

/-- The character set of Python `strip(' ;,')` in the script. -/
def punctSet : List Char := [' ', ';', ',']

/-- Python `str.strip(' ;,')`: strip spaces, semicolons and commas from both ends. -/
def stripPunct (l : List Char) : List Char :=
  strip2 (fun c => punctSet.contains c) l

/-- Python `str.replace(pat, repl)`: left-to-right, non-overlapping
replacement of every occurrence (fuel-indexed worker; each step consumes
at least one character, so fuel = length suffices). -/
def replaceAllGo (pat repl : List Char) : Nat → List Char → List Char
  | _, [] => []
  | Nat.succ fuel, c :: rest =>
    if !pat.isEmpty && pat.isPrefixOf (c :: rest) then
      repl ++ replaceAllGo pat repl fuel ((c :: rest).drop pat.length)
    else
      c :: replaceAllGo pat repl fuel rest
  | 0, s => s

/-- Python `str.replace(pat, repl)` on character lists. -/
def replaceAll (pat repl s : List Char) : List Char :=
  replaceAllGo pat repl s.length s

/-- `re.sub(r"\d+%", "", s)`: remove every maximal digit run immediately
followed by a percent sign, together with the sign. -/
def subPercentGo : Nat → List Char → List Char
  | _, [] => []
  | Nat.succ fuel, c :: rest =>
    if c.isDigit then
      match (c :: rest).dropWhile Char.isDigit with
      | '%' :: tail => subPercentGo fuel tail
      | _ => c :: subPercentGo fuel rest
    else
      c :: subPercentGo fuel rest
  | 0, s => s

/-- `re.sub(r"\d+%", "", s)` on character lists. -/
def subPercent (s : List Char) : List Char :=
  subPercentGo s.length s

/-- `re.sub(r"\(\d+\)", "", s)`: remove parenthesised digit runs. -/
def subParenCountGo : Nat → List Char → List Char
  | _, [] => []
  | Nat.succ fuel, c :: rest =>
    if c = '(' then
      if (rest.takeWhile Char.isDigit).isEmpty then
        c :: subParenCountGo fuel rest
      else
        match rest.dropWhile Char.isDigit with
        | ')' :: tail => subParenCountGo fuel tail
        | _ => c :: subParenCountGo fuel rest
    else
      c :: subParenCountGo fuel rest
  | 0, s => s

/-- `re.sub(r"\(\d+\)", "", s)` on character lists. -/
def subParenCount (s : List Char) : List Char :=
  subParenCountGo s.length s

/-- `re.sub(r";\s*;", ";", s)`: collapse a semicolon, optional whitespace
and a second semicolon into one semicolon; scanning resumes after the match. -/
def subDupSemiGo : Nat → List Char → List Char
  | _, [] => []
  | Nat.succ fuel, c :: rest =>
    if c = ';' then
      match rest.dropWhile isPySpace with
      | ';' :: tail => ';' :: subDupSemiGo fuel tail
      | _ => c :: subDupSemiGo fuel rest
    else
      c :: subDupSemiGo fuel rest
  | 0, s => s

/-- `re.sub(r";\s*;", ";", s)` on character lists. -/
def subDupSemi (s : List Char) : List Char :=
  subDupSemiGo s.length s

/-- `re.sub(r",\s*,", ",", s)`: the analogous collapse for commas. -/
def subDupCommaGo : Nat → List Char → List Char
  | _, [] => []
  | Nat.succ fuel, c :: rest =>
    if c = ',' then
      match rest.dropWhile isPySpace with
      | ',' :: tail => ',' :: subDupCommaGo fuel tail
      | _ => c :: subDupCommaGo fuel rest
    else
      c :: subDupCommaGo fuel rest
  | 0, s => s

/-- `re.sub(r",\s*,", ",", s)` on character lists. -/
def subDupComma (s : List Char) : List Char :=
  subDupCommaGo s.length s

/-- `re.sub(r"\s+", " ", s)`: replace each maximal whitespace run by one space. -/
def subSpacesGo : Nat → List Char → List Char
  | _, [] => []
  | Nat.succ fuel, c :: rest =>
    if isPySpace c then
      ' ' :: subSpacesGo fuel (rest.dropWhile isPySpace)
    else
      c :: subSpacesGo fuel rest
  | 0, s => s

/-- `re.sub(r"\s+", " ", s)` on character lists. -/
def subSpaces (s : List Char) : List Char :=
  subSpacesGo s.length s

/-- `re.sub(r"\(\s*\)", "", s)`: remove parenthesis pairs holding only whitespace. -/
def subEmptyParensGo : Nat → List Char → List Char
  | _, [] => []
  | Nat.succ fuel, c :: rest =>
    if c = '(' then
      match rest.dropWhile isPySpace with
      | ')' :: tail => subEmptyParensGo fuel tail
      | _ => c :: subEmptyParensGo fuel rest
    else
      c :: subEmptyParensGo fuel rest
  | 0, s => s

/-- `re.sub(r"\(\s*\)", "", s)` on character lists. -/
def subEmptyParens (s : List Char) : List Char :=
  subEmptyParensGo s.length s

/-- Python `pat in s`: substring test. -/
def hasSub (pat : List Char) : List Char → Bool
  | [] => pat.isEmpty
  | c :: rest => pat.isPrefixOf (c :: rest) || hasSub pat rest

/-- The `for phrase in UNWANTED_PHRASES: cleaned = cleaned.replace(phrase, "")`
loop of `clean_field`. -/
def phrasesRemoved (s : List Char) : List Char :=
  UNWANTED_PHRASES.foldl (fun acc ph => replaceAll ph [] acc) s

/-- The `for pattern in REGEX_PATTERNS: cleaned = re.sub(pattern, "", cleaned)`
loop of `clean_field`: first `\d+%`, then `\(\d+\)`. -/
def regexRemoved (s : List Char) : List Char :=
  subParenCount (subPercent s)

/-- The guard `';' in field_value or any(phrase in field_value for phrase in
UNWANTED_PHRASES)` of `clean_field`, evaluated on the original field. -/
def tagsTrigger (field : List Char) : Bool :=
  hasSub [';'] field || UNWANTED_PHRASES.any (fun ph => hasSub ph field)

/-- The tags-style formatting cleanup branch of `clean_field`: collapse
duplicate semicolons and commas, normalise whitespace, strip
space/semicolon/comma from the ends, drop whitespace-only parenthesis
pairs, and strip whitespace. -/
def tagsCleanup (s : List Char) : List Char :=
  stripWs (subEmptyParens (stripPunct (subSpaces (subDupComma (subDupSemi s)))))

/-- The final `if not cleaned or cleaned.isspace(): return ""` step of
`clean_field`. -/
def finalize (c : List Char) : List Char :=
  if c.isEmpty || (!c.isEmpty && c.all isPySpace) then [] else c

/-- `clean_field` from the script, on character lists. -/
def clean_field (field : List Char) : List Char :=
  if field.isEmpty then field
  else if stripWs field ∈ UNWANTED_PHRASES then []
  else
    let cleaned := regexRemoved (phrasesRemoved field)
    finalize (if tagsTrigger field then tagsCleanup cleaned else stripWs cleaned)

/-- A CSV row: a list of string fields. -/
abbrev Row := List (List Char)

/-- The per-row body of the `for row_num, row in enumerate(rows)` loop of
`process_csv`, for a non-empty row: drop the last field, and clean every
remaining field unless this is the header row (`row_num = 0`). -/
def cleanRow (rowNum : Nat) (row : Row) : Row :=
  if 0 < rowNum then row.dropLast.map clean_field else row.dropLast

/-- The writer loop of `process_csv` starting at row number `n`: skips empty
rows, writes `cleanRow` of the rest, and counts the written rows
(`rows_processed`). -/
def processLoop : Nat → List Row → List Row × Nat
  | _, [] => ([], 0)
  | n, row :: rest =>
    let r := processLoop (n + 1) rest
    if row.isEmpty then r else (cleanRow n row :: r.1, r.2 + 1)

/-- The error message printed by `process_csv` on an empty input. -/
def emptyInputMsg : String :=
  "Error: Input file is empty"

/-- Observable outcome of one `process_csv` call: the rows written to the
output file (`none` when no output file is opened), the error message
printed (if any), and the `rows_processed` counter. -/
structure CsvRun where
  written : Option (List Row)
  errMsg : Option String
  rowsProcessed : Nat
deriving DecidableEq

/-- `process_csv` from the script: on an empty row list it prints an error
and returns without opening the output file; otherwise it writes the
processed rows. -/
def process_csv (rows : List Row) : CsvRun :=
  if rows.isEmpty then ⟨none, some emptyInputMsg, 0⟩
  else ⟨some (processLoop 0 rows).1, none, (processLoop 0 rows).2⟩

/-- Exit code of `main`, modelled over the observable branch conditions:
`argc` is `len(sys.argv)`, `inputExists` whether the input path exists, and
`procRaises` whether `process_csv` raises an exception. Usage error,
missing file and a raised exception all `sys.exit(1)`; otherwise `main`
returns normally (exit 0) — including when `process_csv` hits the
empty-input early return. -/
def mainExitCode (argc : Nat) (inputExists : Bool) (procRaises : Bool)
    (_rows : List Row) : Nat :=
  if argc < 2 then 1
  else if inputExists = false then 1
  else if procRaises = true then 1
  else 0

/-- The exit-code rule as the spec states it (exit 1 also on an empty
input file), for comparison with `mainExitCode`. -/
def specExitCode (argc : Nat) (inputExists : Bool) (procRaises : Bool)
    (rows : List Row) : Nat :=
  if argc < 2 then 1
  else if inputExists = false then 1
  else if rows.isEmpty then 1
  else if procRaises = true then 1
  else 0

/-! ### Helper lemmas about stripping -/

theorem dropWhile_head_false (p : Char → Bool) :
    ∀ (l : List Char) (a : Char) (as : List Char),
      l.dropWhile p = a :: as → p a = false := by
  intro l
  induction l with
  | nil => intro a as h; simp at h
  | cons c t ih =>
    intro a as h
    rw [List.dropWhile_cons] at h
    split at h
    · exact ih _ _ h
    · next hc =>
      cases h
      simpa using hc

theorem dropWhile_suffix_ex (p : Char → Bool) (l : List Char) :
    ∃ s, s ++ l.dropWhile p = l := by
  induction l with
  | nil => exact ⟨[], rfl⟩
  | cons c t ih =>
    rw [List.dropWhile_cons]
    split
    · obtain ⟨s, hs⟩ := ih
      exact ⟨c :: s, by simp [hs]⟩
    · exact ⟨[], rfl⟩

theorem strip2_headI_false (p : Char → Bool) (x : List Char)
    (h : strip2 p x ≠ []) : p ((strip2 p x).headI) = false := by
  cases hr : strip2 p x with
  | nil => exact absurd hr h
  | cons a as =>
    have := dropWhile_head_false p (rstrip p x) a as hr
    simpa using this

theorem strip2_reverse_headI_false (p : Char → Bool) (x : List Char)
    (h : strip2 p x ≠ []) : p ((strip2 p x).reverse.headI) = false := by
  obtain ⟨s, hs⟩ := dropWhile_suffix_ex p (rstrip p x)
  have hrev : (strip2 p x).reverse ++ s.reverse = x.reverse.dropWhile p := by
    have h1 : (rstrip p x).reverse = x.reverse.dropWhile p := by
      unfold rstrip
      rw [List.reverse_reverse]
    have h2 : s ++ strip2 p x = rstrip p x := hs
    rw [← h1, ← h2, List.reverse_append]
  cases hc : (strip2 p x).reverse with
  | nil => exact absurd (List.reverse_eq_nil_iff.mp hc) h
  | cons c cs =>
    rw [hc] at hrev
    have h3 : x.reverse.dropWhile p = c :: (cs ++ s.reverse) := by
      rw [← hrev]
      rfl
    have hpc := dropWhile_head_false p _ _ _ h3
    simpa using hpc

theorem strip2_all_false (p : Char → Bool) (x : List Char)
    (h : strip2 p x ≠ []) : (strip2 p x).all p = false := by
  cases hr : strip2 p x with
  | nil => exact absurd hr h
  | cons a as =>
    have h1 := strip2_headI_false p x h
    rw [hr] at h1
    simp at h1
    simp [h1]

theorem finalize_strip2 (x : List Char) :
    finalize (strip2 isPySpace x) = strip2 isPySpace x := by
  unfold finalize
  by_cases h : strip2 isPySpace x = []
  · rw [h]
    rfl
  · have ha := strip2_all_false isPySpace x h
    have hie : (strip2 isPySpace x).isEmpty = false := by
      simpa [List.isEmpty_iff] using h
    simp [hie, ha]

theorem strip2_props (x : List Char) :
    isPySpace ((strip2 isPySpace x).headI) = false ∧
      isPySpace ((strip2 isPySpace x).reverse.headI) = false ∧
      (strip2 isPySpace x = [] ∨ (strip2 isPySpace x).all isPySpace = false) := by
  by_cases h : strip2 isPySpace x = []
  · rw [h]
    exact ⟨by decide, by decide, Or.inl rfl⟩
  · exact ⟨strip2_headI_false _ _ h, strip2_reverse_headI_false _ _ h,
      Or.inr (strip2_all_false _ _ h)⟩

/-! ### Helper lemmas about `clean_field` -/

theorem clean_field_phrase_aux (field : List Char)
    (h : stripWs field ∈ UNWANTED_PHRASES) : clean_field field = [] := by
  have hie : field.isEmpty = false := by
    cases field with
    | nil => exact absurd h (by decide)
    | cons c t => rfl
  simp [clean_field, hie, h]

theorem clean_field_branch_aux (field : List Char) (hne : field ≠ [])
    (hnp : stripWs field ∉ UNWANTED_PHRASES) :
    clean_field field =
      if tagsTrigger field then tagsCleanup (regexRemoved (phrasesRemoved field))
      else stripWs (regexRemoved (phrasesRemoved field)) := by
  have hie : field.isEmpty = false := by simpa [List.isEmpty_iff] using hne
  by_cases ht : tagsTrigger field
  · rw [if_pos ht]
    simp only [clean_field, hie, Bool.false_eq_true, if_false, if_neg hnp, if_pos ht]
    exact finalize_strip2 _
  · rw [if_neg ht]
    simp only [clean_field, hie, Bool.false_eq_true, if_false, if_neg hnp, if_neg ht]
    exact finalize_strip2 _

/-! ### Helper lemmas about `processLoop` -/

theorem cleanRow_length (m : Nat) (r : Row) (hne : r ≠ []) :
    (cleanRow m r).length + 1 = r.length := by
  have h1 : (cleanRow m r).length = r.length - 1 := by
    unfold cleanRow
    split <;> simp
  have h2 : 1 ≤ r.length := List.length_pos.mpr hne
  omega

theorem processLoop_mem (n : Nat) (rows : List Row) (m : Nat) (r : Row)
    (hmem : (m, r) ∈ List.enumFrom n rows) (hne : r ≠ []) :
    cleanRow m r ∈ (processLoop n rows).1 := by
  induction rows generalizing n with
  | nil => simp [List.enumFrom] at hmem
  | cons row rest ih =>
    have hie : r.isEmpty = false := by simpa [List.isEmpty_iff] using hne
    rcases List.mem_cons.mp hmem with heq | htail
    · injection heq with hm hr
      subst hm
      subst hr
      simp [processLoop, hie]
    · have hmem2 := ih (n + 1) htail
      by_cases he : row.isEmpty
      · simpa [processLoop, he] using hmem2
      · simp [processLoop, he]
        exact Or.inr hmem2

/-! ### Claim theorems -/

/-- C1 (counterexample): on an invocation with an input argument, an
existing input file that yields no rows, and no exception, `main` exits
with code 0, while the claimed rule demands exit code 1 for an empty
input file. -/
theorem mainExitCode_empty_input_cex :
    mainExitCode 2 true false [] = 0 ∧ specExitCode 2 true false [] = 1 := by
  decide

/-- C1 (amended): the process exit code is 0 on success and also on an
empty input file (where an error message is printed but `main` returns
normally), and 1 exactly when the invocation is a usage error (no input
argument), the input file is missing, or an exception occurs during
processing. -/
theorem mainExitCode_amended (argc : Nat) (inputExists procRaises : Bool)
    (rows : List Row) :
    mainExitCode argc inputExists procRaises rows =
      if argc < 2 ∨ inputExists = false ∨ procRaises = true then 1 else 0 := by
  by_cases h : argc < 2 <;>
    cases inputExists <;> cases procRaises <;> simp [mainExitCode, h]

/-- C2: for every row of the input CSV that is written to the output (every
non-empty row), the written row `cleanRow` has exactly one fewer field
than the input row, the last field having been removed. -/
theorem written_row_one_fewer_field (n : Nat) (rows : List Row) (m : Nat)
    (r : Row) (hmem : (m, r) ∈ List.enumFrom n rows) (hne : r ≠ []) :
    cleanRow m r ∈ (processLoop n rows).1 ∧
      (cleanRow m r).length + 1 = r.length :=
  ⟨processLoop_mem n rows m r hmem hne, cleanRow_length m r hne⟩

/-- C2 (witness): the theorem instantiated on the one-row input
`[["a", "b"]]`. -/
theorem written_row_one_fewer_field_witness :
    (0, [("a").toList, ("b").toList]) ∈
        List.enumFrom 0 [[("a").toList, ("b").toList]] ∧
      ([("a").toList, ("b").toList] : Row) ≠ [] ∧
      (cleanRow 0 [("a").toList, ("b").toList] ∈
          (processLoop 0 [[("a").toList, ("b").toList]]).1 ∧
        (cleanRow 0 [("a").toList, ("b").toList]).length + 1 =
          ([("a").toList, ("b").toList] : Row).length) :=
  ⟨by decide, by decide,
    written_row_one_fewer_field 0 [[("a").toList, ("b").toList]] 0
      [("a").toList, ("b").toList] (by decide) (by decide)⟩

/-- C3: on an input with no rows, `process_csv` prints the empty-input
error message, opens no output file, and counts no processed rows. -/
theorem process_csv_empty_input :
    process_csv [] = ⟨none, some emptyInputMsg, 0⟩ := rfl

/-- C4: for a non-empty field whose trimmed value is not exactly an
unwanted phrase, `clean_field` is phrase removal followed by regex
removal, then — when the original field contains a semicolon or an
unwanted phrase as a substring — the tags cleanup (collapse duplicate
semicolons and commas, normalise whitespace runs to one space, strip
whitespace, semicolons and commas from the ends, drop whitespace-only
parenthesis pairs); otherwise only whitespace trimming. -/
theorem clean_field_formatting_branch (field : List Char) (hne : field ≠ [])
    (hnp : stripWs field ∉ UNWANTED_PHRASES) :
    clean_field field =
      if tagsTrigger field then tagsCleanup (regexRemoved (phrasesRemoved field))
      else stripWs (regexRemoved (phrasesRemoved field)) :=
  clean_field_branch_aux field hne hnp

/-- C4 (witness): the theorem instantiated on the field `"a;;b"`. -/
theorem clean_field_formatting_branch_witness :
    ("a;;b").toList ≠ [] ∧ stripWs (("a;;b").toList) ∉ UNWANTED_PHRASES ∧
      clean_field (("a;;b").toList) =
        (if tagsTrigger (("a;;b").toList) then
          tagsCleanup (regexRemoved (phrasesRemoved (("a;;b").toList)))
        else stripWs (regexRemoved (phrasesRemoved (("a;;b").toList)))) :=
  ⟨by decide, by decide,
    clean_field_formatting_branch (("a;;b").toList) (by decide) (by decide)⟩

/-- C5: a field whose whitespace-trimmed value is exactly one of the five
unwanted phrases is cleaned to the empty string. -/
theorem clean_field_unwanted_exact (field : List Char)
    (h : stripWs field ∈ UNWANTED_PHRASES) : clean_field field = [] :=
  clean_field_phrase_aux field h

/-- C5 (witness): the theorem instantiated on the field `"Plus small"`. -/
theorem clean_field_unwanted_exact_witness :
    stripWs (("Plus small").toList) ∈ UNWANTED_PHRASES ∧
      clean_field (("Plus small").toList) = [] :=
  ⟨by decide, clean_field_unwanted_exact (("Plus small").toList) (by decide)⟩

/-- C6: `clean_field` maps `"93% (30) great"` to `"great"`: the percentage
token and the parenthesised count are removed by the regex patterns, and,
with no semicolon and no unwanted phrase in the original, only whitespace
trimming follows. -/
theorem clean_field_percent_count_example :
    clean_field (("93% (30) great").toList) = ("great").toList := by decide

/-- C7: `clean_field` maps `"a;;b"` to `"a;b"`: the field contains a
semicolon, so the duplicate-semicolon collapsing rule merges the adjacent
semicolons. -/
theorem clean_field_dup_semicolon_example :
    clean_field (("a;;b").toList) = ("a;b").toList := by decide

/-- C8: on an input whose header row is non-empty, the first output row is
exactly the header with its last field removed, with no field passed
through `clean_field`. -/
theorem header_row_dropLast (hrow : Row) (rest : List Row) (hne : hrow ≠ []) :
    process_csv (hrow :: rest) =
      ⟨some (hrow.dropLast :: (processLoop 1 rest).1), none,
        (processLoop 1 rest).2 + 1⟩ := by
  have hie : hrow.isEmpty = false := by simpa [List.isEmpty_iff] using hne
  simp [process_csv, processLoop, hie, cleanRow]

/-- C8 (witness): the theorem instantiated on the one-row input
`[["name", "imageURL"]]`. -/
theorem header_row_dropLast_witness :
    ([("name").toList, ("imageURL").toList] : Row) ≠ [] ∧
      process_csv [[("name").toList, ("imageURL").toList]] =
        ⟨some (([("name").toList, ("imageURL").toList] : Row).dropLast ::
            (processLoop 1 []).1), none, (processLoop 1 []).2 + 1⟩ :=
  ⟨by decide, header_row_dropLast [("name").toList, ("imageURL").toList] []
    (by decide)⟩

/-- C9: empty input rows are omitted entirely: the written rows are exactly
the cleaned non-empty rows (under their original row numbers), and the
`rows_processed` counter equals the number of non-empty input rows. -/
theorem empty_rows_skipped (n : Nat) (rows : List Row) :
    (processLoop n rows).1 =
      ((List.enumFrom n rows).filter (fun p => !p.2.isEmpty)).map
        (fun p => cleanRow p.1 p.2) ∧
      (processLoop n rows).2 = (rows.filter (fun r => !r.isEmpty)).length := by
  induction rows generalizing n with
  | nil => simp [processLoop, List.enumFrom]
  | cons row rest ih =>
    obtain ⟨ih1, ih2⟩ := ih (n + 1)
    by_cases he : row.isEmpty
    · simp [processLoop, List.enumFrom, he, ih1, ih2]
    · simp [processLoop, List.enumFrom, he, ih1, ih2]

/-- C10: for every input, the cleaned field has no leading and no trailing
whitespace (stated via its first character and the first character of its
reversal; the head of the empty list is the non-whitespace default
character), and it is never a non-empty all-whitespace string. -/
theorem clean_field_no_edge_whitespace (f : List Char) :
    isPySpace ((clean_field f).headI) = false ∧
      isPySpace ((clean_field f).reverse.headI) = false ∧
      (clean_field f = [] ∨ (clean_field f).all isPySpace = false) := by
  by_cases h0 : f.isEmpty
  · have hf : f = [] := List.isEmpty_iff.mp h0
    subst hf
    exact ⟨by decide, by decide, Or.inl (by decide)⟩
  · have hne : f ≠ [] := by simpa [List.isEmpty_iff] using h0
    by_cases h1 : stripWs f ∈ UNWANTED_PHRASES
    · rw [clean_field_phrase_aux f h1]
      exact ⟨by decide, by decide, Or.inl rfl⟩
    · rw [clean_field_branch_aux f hne h1]
      by_cases ht : tagsTrigger f
      · rw [if_pos ht]
        exact strip2_props
          (subEmptyParens (stripPunct (subSpaces (subDupComma
            (subDupSemi (regexRemoved (phrasesRemoved f)))))))
      · rw [if_neg ht]
        exact strip2_props (regexRemoved (phrasesRemoved f))
